import Mathlib

/-!
Shallow embedding of the signing orchestration engine of `xsign.py`
(ios-signer-app).  Identifier strings are modelled as lists of
characters; property-list manifests as partial maps from key strings to
string values; the concurrent dispatch loop as a deterministic event
trace; the retry wrapper as a recursion over a list of attempt
outcomes.  Each definition is translated from the corresponding place
in the source file.
-/

namespace XSign

/-- Identifier strings (bundle ids, app ids, team ids) as character lists. -/
abbrev Str := List Char

/-! ### Retry wrapper (`exec_retry`, xsign.py lines 79-91)

The wrapper runs `func()` in a loop guarded by
`while time.time() - start_time < 90`.  A raised error whose cause is a
`TimeoutExpired` is logged and retried; any other error propagates
immediately; when the guard fails the wrapper raises an error naming the
operation.  An execution of `func` is modelled by an `AttemptOutcome`
together with the wall-clock duration the attempt consumed; the list of
attempts is the behaviour of the external tool over time. -/

/-- Result of a single invocation of the wrapped step function:
success with a value, a failure caused by a timeout, or any other failure. -/
inductive AttemptOutcome where
  | ok (v : Nat)
  | timedOut
  | fatal
deriving DecidableEq

/-- Result of `exec_retry` as a whole.  `deadlineErr` carries the operation
name, mirroring `Exception(f"{name} timed out too many times")`.
`starved` marks the (physically impossible) case where the supplied
attempt list is exhausted while the deadline has not passed. -/
inductive RetryResult where
  | success (v : Nat)
  | fatalErr
  | deadlineErr (name : String)
  | starved
deriving DecidableEq

/-- `exec_retry` (xsign.py lines 79-91): `elapsed` is the wall-clock time
already consumed (`time.time() - start_time`); each attempt consumes its
stated duration. The loop guard `elapsed < 90` is checked before every
attempt. -/
def execRetry (name : String) : Nat → List (Nat × AttemptOutcome) → RetryResult
  | elapsed, attempts =>
    if 90 ≤ elapsed then .deadlineErr name
    else
      match attempts with
      | [] => .starved
      | (_, .ok v) :: _ => .success v
      | (_, .fatal) :: _ => .fatalErr
      | (d, .timedOut) :: rest => execRetry name (elapsed + d) rest

/-- Total wall-clock duration of a list of attempts. -/
def totalDuration (attempts : List (Nat × AttemptOutcome)) : Nat :=
  (attempts.map (fun a => a.1)).sum

/-! ### Main bundle identifier from a provisioning profile
(xsign.py lines 195-204)

`main_bundle_id = prov_app_id[prov_app_id.find(".") + 1:]` strips
everything up to and including the first dot (when no dot exists,
`find` returns `-1` and the slice keeps the whole string); when the
stripped identifier still contains `*`, the code logs a warning and
falls back to the original main bundle id. -/

/-- Index of the first `.` in a string, `none` when absent
(Python `s.find(".")` with `-1` mapped to `none`). -/
def findDot : Str → Option Nat
  | [] => none
  | c :: cs => if c = '.' then some 0 else (findDot cs).map (· + 1)

/-- `prov_app_id[prov_app_id.find(".") + 1:]` — drop through the first dot;
keep the whole string when there is no dot. -/
def dropTeamId (s : Str) : Str :=
  match findDot s with
  | none => s
  | some i => s.drop (i + 1)

/-- Resolution of the main bundle id from a provisioning profile's
`application-identifier` (xsign.py lines 196-204).  Returns the chosen
identifier together with a flag recording whether the wildcard warning
was printed.  The function is total: no branch fails the session. -/
def resolveFromProv (provAppId oldMainBundleId : Str) : Str × Bool :=
  let m := dropTeamId provAppId
  if '*' ∈ m then (oldMainBundleId, true) else (m, false)

/-! ### Component bundle identifier derivation (xsign.py line 249)

`bundle_id = f"{main_bundle_id}{old_bundle_id[len(old_main_bundle_id):]}"`. -/

/-- Replacement identifier of a primary component: the new main bundle id
concatenated with the old identifier minus its first
`len(old_main_bundle_id)` characters. -/
def computeComponentId (mainBundleId oldMainBundleId oldBundleId : Str) : Str :=
  mainBundleId ++ oldBundleId.drop oldMainBundleId.length

/-! ### Identifier memo table (xsign.py lines 236 and 384-393)

`mappings: Dict[str, str] = {}` is shared by every `sign_primary` call of
one session.  For each identifier to remap the code runs
`if remap_id not in mappings:` and only then computes a seed and stores
`mappings[remap_id] = gen_id(remap_id, seed)` (or the identity when
`encode_ids` is off).  `gen_id` lives in the external `util` module and
is taken as an arbitrary function parameter here. -/

/-- The memo table, as the insertion-ordered association list of a Python
dict whose entries are only ever added, never overwritten. -/
abbrev Mappings := List (Str × Str)

/-- Dict lookup. -/
def lookupMap : Mappings → Str → Option Str
  | [], _ => none
  | (k, v) :: rest, x => if k = x then some v else lookupMap rest x

/-- Seed selection (xsign.py lines 387-390): `if opts.bundle_id:` is
Python truthiness, false for both `None` and the empty string, in which
cases the seed is `remap_id + opts.team_id`. -/
def remapSeed (bundleId : Option Str) (teamId remapId : Str) : Str :=
  match bundleId with
  | some b => if b = [] then remapId ++ teamId else b
  | none => remapId ++ teamId

/-- One iteration of the remap loop body (xsign.py lines 384-393) for a
single identifier: store a mapping only when the identifier is absent. -/
def remapStep (genId : Str → Str → Str) (encodeIds : Bool)
    (bundleId : Option Str) (teamId : Str) (m : Mappings) (remapId : Str) :
    Mappings :=
  if (lookupMap m remapId).isSome then m
  else if encodeIds then
    m ++ [(remapId, genId remapId (remapSeed bundleId teamId remapId))]
  else
    m ++ [(remapId, remapId)]

/-! ### Entitlement manifests as partial maps

`PlistBuddy` operations on an entitlements plist: `Set` rewrites an
existing key (with `check=False` it silently does nothing when the key is
absent), `Add` creates it, `Delete` with `check=False` removes it when
present.  Only the keys and string-like values the claims touch are
modelled; a manifest is a partial map from key to value. -/

abbrev Plist := String → Option Str

/-- `Add`/unconditional `Set` of a key that is then present. -/
def setKey (k : String) (v : Str) (m : Plist) : Plist :=
  fun x => if x = k then some v else m x

/-- `Delete :k` with `check=False`: removes the key when present,
silently no-op otherwise (same map either way). -/
def deleteKey (k : String) (m : Plist) : Plist :=
  fun x => if x = k then none else m x

/-- `Set :k v` with `check=False`: PlistBuddy `Set` fails on an absent
key, and the suppressed failure leaves the manifest unchanged. -/
def setKeyIfPresent (k : String) (v : Str) (m : Plist) : Plist :=
  if (m k).isSome then setKey k v m else m

/-! ### Supplied-profile application identifier check
(xsign.py lines 260-269)

With a provisioning profile supplied, its entitlements (containing its
own `application-identifier`) were dumped into the entitlements plist;
if the profile's app id equals `f"{opts.team_id}.{bundle_id}"` or
contains `*`, the entitlement is rewritten to the computed component app
id, otherwise a warning is printed and nothing is rewritten. -/

/-- The branch at xsign.py lines 260-269.  Returns the resulting
entitlements map and whether the mismatch warning was printed. -/
def applyProvAppId (teamId bundleId provAppId : Str) (ents : Plist) :
    Plist × Bool :=
  let componentAppId := teamId ++ '.' :: bundleId
  if provAppId = componentAppId ∨ '*' ∈ provAppId then
    (setKey "application-identifier" componentAppId ents, false)
  else
    (ents, true)

/-! ### Final CFBundleIdentifier and `bundle_id.txt`
(xsign.py lines 460-465 and 225-229) -/

/-- What `sign_primary` writes into the component's `Info.plist`
(xsign.py lines 460-465): the pre-signing identifier when
`force_original_id` is set, the computed identifier otherwise. -/
def writeManifestId (forceOriginalId : Bool) (oldBundleId bundleId : Str)
    (info : Plist) : Plist :=
  if forceOriginalId then setKey "CFBundleIdentifier" oldBundleId info
  else setKey "CFBundleIdentifier" bundleId info

/-- Content of the `bundle_id.txt` artifact (xsign.py lines 225-229). -/
def bundleIdTxt (forceOriginalId : Bool) (oldMainBundleId mainBundleId : Str) :
    Str :=
  if forceOriginalId then oldMainBundleId else mainBundleId

/-! ### get-task-allow (xsign.py lines 467-472)

`Delete :get-task-allow` (check suppressed) always runs first; the key is
re-added as boolean `true` exactly when `opts.patch_debug` is set. -/

/-- The final get-task-allow handling applied to the entitlements that
will be passed to `codesign`. -/
def finalizeDebug (patchDebug : Bool) (ents : Plist) : Plist :=
  let cleared := deleteKey "get-task-allow" ents
  if patchDebug then setKey "get-task-allow" "true".data cleared else cleared

/-! ### Identifier text patches (xsign.py lines 417-426)

`targets = [xcode_entitlements_plist]`, extended with the component
binary and its `Info.plist` only when `opts.patch_ids` is set; then for
every target and every `(old, new)` pair the code runs
`binary_replace(f"s/{re.escape(old)}/{re.escape(new)}/g", target)`:
`re.escape` makes the substitution an exact literal global substring
replacement (leftmost, non-overlapping), modelled by `replaceAll`. -/

/-- Global literal replacement scan with a non-empty needle `o :: os`:
at each position, if the needle matches, emit `new` and resume after the
match (non-overlapping); otherwise keep one character and move on. -/
def replaceScan (o : Char) (os : List Char) (new : Str) : Str → Str
  | [] => []
  | c :: cs =>
    if (o :: os).isPrefixOf (c :: cs) then
      new ++ replaceScan o os new (cs.drop os.length)
    else
      c :: replaceScan o os new cs
termination_by s => s.length
decreasing_by
  · simp only [List.length_drop, List.length_cons]
    omega
  · simp only [List.length_cons]
    omega

/-- `s/old/new/g` with `old` escaped into a literal pattern.  The empty
needle never arises: every patch key is a nonempty identifier. -/
def replaceAll (old new s : Str) : Str :=
  match old with
  | [] => s
  | o :: os => replaceScan o os new s

/-- One target file receiving every `(old, new)` pair in order. -/
def applyPatches (patches : List (Str × Str)) (s : Str) : Str :=
  patches.foldl (fun acc p => replaceAll p.1 p.2 acc) s

/-- Whether `old` occurs as a contiguous substring of `s`. -/
def occursIn (old : Str) : Str → Bool
  | [] => old.isEmpty
  | c :: cs => old.isPrefixOf (c :: cs) || occursIn old cs

/-- The three files of a primary component that the patch loop can
touch: the derived entitlements plist, the component binary, and the
component manifest (`Info.plist`). -/
structure ComponentFiles where
  entitlementsFile : Str
  binaryFile : Str
  manifestFile : Str
deriving DecidableEq

/-- The patch loop of xsign.py lines 417-426: the entitlements plist is
always a target; the binary and the manifest are targets only when
`opts.patch_ids` is set. -/
def patchComponent (patchIds : Bool) (patches : List (Str × Str))
    (fs : ComponentFiles) : ComponentFiles :=
  { entitlementsFile := applyPatches patches fs.entitlementsFile,
    binaryFile :=
      if patchIds then applyPatches patches fs.binaryFile else fs.binaryFile,
    manifestFile :=
      if patchIds then applyPatches patches fs.manifestFile else fs.manifestFile }

/-! ### Entitlement stripping (xsign.py lines 300-343)

The Oracle deletes a fixed list of entitlement keys
(`Delete :item`, check suppressed) and then demotes two environment
keys with `Set` (check suppressed; PlistBuddy `Set` leaves an absent key
absent). -/

/-- The delete-list of xsign.py lines 300-328, in source order. -/
def strippedKeys : List String :=
  ["application-identifier",
   "com.apple.developer.team-identifier",
   "get-task-allow",
   "com.apple.developer.in-app-payments",
   "com.apple.developer.mail-client",
   "com.apple.developer.web-browser",
   "com.apple.developer.networking.multicast",
   "com.apple.developer.usernotifications.filtering",
   "com.apple.developer.usernotifications.critical-alerts",
   "com.apple.developer.networking.HotspotHelper",
   "com.apple.managed.vpn.shared",
   "beta-reports-active",
   "com.apple.developer.carplay-messaging",
   "com.apple.developer.pushkit.unrestricted-voip",
   "com.apple.developer.associated-appclip-app-identifiers"]

/-- The delete loop (xsign.py lines 300-333). -/
def stripKeys (m : Plist) : Plist :=
  strippedKeys.foldl (fun acc k => deleteKey k acc) m

/-- Deletion pass followed by the two demotion `Set`s
(xsign.py lines 300-343), in the dict's insertion order. -/
def stripStep (m : Plist) : Plist :=
  setKeyIfPresent "aps-environment" "development".data
    (setKeyIfPresent "com.apple.developer.icloud-container-environment"
      "Development".data
      (stripKeys m))

/-! ### Dependency scheduler (xsign.py lines 493-526)

The dispatch loop keeps `jobs: Dict[Path, Popen]` of in-flight signing
processes.  Before dispatching a component it iterates the running jobs;
every job whose path is `relative_to` the component (filesystem-contained
in it) is waited on, its exit status checked (`popen_check`), and popped;
all other jobs are left running.  The component's own job is then
dispatched.  After the loop every remaining job is waited on and checked.
The observable behaviour is modelled as an event trace. -/

/-- A filesystem path as its list of segments. -/
abbrev FsPath := List String

/-- `path.relative_to(component)` succeeds exactly when the component's
segments lead the path's segments. -/
def leads : FsPath → FsPath → Bool
  | [], _ => true
  | _ :: _, [] => false
  | a :: as, b :: bs => (a == b) && leads as bs

/-- Observable scheduler events: a job's completion being observed
(waited on and exit-status checked) and a job being dispatched. -/
inductive SchedEvent where
  | completed (p : FsPath)
  | dispatched (p : FsPath)
deriving DecidableEq

/-- Scheduler state: the running jobs in insertion order, and the event
trace so far. -/
structure SchedState where
  jobs : List FsPath
  trace : List SchedEvent
deriving DecidableEq

/-- One iteration of the dispatch loop (xsign.py lines 496-521): complete
and pop every running job contained in `c`, keep the rest running, then
dispatch `c`. -/
def dispatchOne (s : SchedState) (c : FsPath) : SchedState :=
  { jobs := s.jobs.filter (fun p => !(leads c p)) ++ [c],
    trace := s.trace ++
      (s.jobs.filter (fun p => leads c p)).map SchedEvent.completed ++
      [SchedEvent.dispatched c] }

/-- The loop over a component list from a given state. -/
def runFrom (s : SchedState) (cs : List FsPath) : SchedState :=
  cs.foldl dispatchOne s

/-- The full session trace: the dispatch loop from the empty state
followed by the final drain (xsign.py lines 523-526), which waits on and
checks every remaining job in order. -/
def finalTrace (cs : List FsPath) : List SchedEvent :=
  (runFrom ⟨[], []⟩ cs).trace ++
    (runFrom ⟨[], []⟩ cs).jobs.map SchedEvent.completed

/-- `e1` occurs in the trace strictly before any occurrence of `e2`:
some prefix of the trace contains `e1` but not `e2`. -/
def occursBefore (e1 e2 : SchedEvent) (tr : List SchedEvent) : Prop :=
  ∃ n, n ≤ tr.length ∧ e1 ∈ tr.take n ∧ e2 ∉ tr.take n

/-! ## Theorems -/

lemma execRetry_guard_lt (name : String) (elapsed : Nat) (h : elapsed < 90)
    (attempts : List (Nat × AttemptOutcome)) :
    execRetry name elapsed attempts =
      match attempts with
      | [] => .starved
      | (_, .ok v) :: _ => .success v
      | (_, .fatal) :: _ => .fatalErr
      | (d, .timedOut) :: rest => execRetry name (elapsed + d) rest := by
  rw [execRetry.eq_def]
  simp [Nat.not_le.mpr h]

lemma execRetry_all_timeouts (name : String) :
    ∀ (attempts : List (Nat × AttemptOutcome)) (elapsed : Nat),
      (∀ a ∈ attempts, a.2 = AttemptOutcome.timedOut) →
      90 ≤ elapsed + totalDuration attempts →
      execRetry name elapsed attempts = .deadlineErr name := by
  intro attempts
  induction attempts with
  | nil =>
    intro elapsed _ hd
    rw [execRetry.eq_def]
    simp only [totalDuration, List.map_nil, List.sum_nil, Nat.add_zero] at hd
    simp [hd]
  | cons a rest ih =>
    intro elapsed hto hd
    by_cases hlt : 90 ≤ elapsed
    · rw [execRetry.eq_def]; simp [hlt]
    · have ha : a.2 = AttemptOutcome.timedOut := hto a (List.mem_cons_self a rest)
      obtain ⟨d, o⟩ := a
      simp only at ha
      subst ha
      rw [execRetry_guard_lt name elapsed (Nat.not_le.mp hlt)]
      apply ih
      · intro x hx; exact hto x (List.mem_cons_of_mem _ hx)
      · simp only [totalDuration, List.map_cons, List.sum_cons] at hd ⊢
        omega

/-- C3: `exec_retry` returns a success immediately, propagates a
non-timeout failure immediately without retrying, retries a timeout while
the elapsed time is below the 90-second deadline, and raises a fatal
error naming the operation when the deadline is exhausted by timeouts. -/
theorem exec_retry_spec (name : String) (elapsed d : Nat) (v : Nat)
    (rest : List (Nat × AttemptOutcome)) (h : elapsed < 90) :
    execRetry name elapsed ((d, .ok v) :: rest) = .success v ∧
    execRetry name elapsed ((d, .fatal) :: rest) = .fatalErr ∧
    execRetry name elapsed ((d, .timedOut) :: rest) =
      execRetry name (elapsed + d) rest ∧
    (∀ attempts : List (Nat × AttemptOutcome),
      (∀ a ∈ attempts, a.2 = AttemptOutcome.timedOut) →
      90 ≤ elapsed + totalDuration attempts →
      execRetry name elapsed attempts = .deadlineErr name) := by
  refine ⟨?_, ?_, ?_, ?_⟩
  · rw [execRetry_guard_lt name elapsed h]
  · rw [execRetry_guard_lt name elapsed h]
  · rw [execRetry_guard_lt name elapsed h]
  · intro attempts h1 h2
    exact execRetry_all_timeouts name attempts elapsed h1 h2

/-- Witness for C3 at concrete inputs: time 0, attempt duration 20. -/
theorem exec_retry_spec_witness :
    (0 : Nat) < 90 ∧
    (execRetry "xcode_archive" 0 [(20, .ok 7)] = .success 7 ∧
     execRetry "xcode_archive" 0 [(20, .fatal)] = .fatalErr ∧
     execRetry "xcode_archive" 0 [(20, .timedOut)] =
       execRetry "xcode_archive" (0 + 20) [] ∧
    (∀ attempts : List (Nat × AttemptOutcome),
      (∀ a ∈ attempts, a.2 = AttemptOutcome.timedOut) →
      90 ≤ 0 + totalDuration attempts →
      execRetry "xcode_archive" 0 attempts = .deadlineErr "xcode_archive")) :=
  ⟨by decide, exec_retry_spec "xcode_archive" 0 20 7 [] (by decide)⟩

lemma findDot_append_dot (team rest : Str) (h : '.' ∉ team) :
    findDot (team ++ '.' :: rest) = some team.length := by
  induction team with
  | nil => simp [findDot]
  | cons c cs ih =>
    have hc : c ≠ '.' := by
      intro hcontra; exact h (hcontra ▸ List.mem_cons_self c cs)
    have hcs : '.' ∉ cs := fun hm => h (List.mem_cons_of_mem c hm)
    simp [findDot, hc, ih hcs]

lemma dropTeamId_append (team rest : Str) (h : '.' ∉ team) :
    dropTeamId (team ++ '.' :: rest) = rest := by
  rw [dropTeamId, findDot_append_dot team rest h]
  simp only
  rw [show team.length + 1 = (team ++ ['.']).length by simp]
  rw [show team ++ '.' :: rest = (team ++ ['.']) ++ rest by simp]
  exact List.drop_left _ _

/-- C4: when the main bundle id is derived from a supplied provisioning
profile's application identifier, the team-id prefix (everything through
the first dot) is stripped; if the remainder contains a wildcard the
resolution falls back to the original bundle id with a warning, and in
all cases the resolution succeeds (the function is total, no failure). -/
theorem main_bundle_id_from_prov (team rest old : Str) (h : '.' ∉ team) :
    resolveFromProv (team ++ '.' :: rest) old =
      if '*' ∈ rest then (old, true) else (rest, false) := by
  rw [resolveFromProv]
  simp only [dropTeamId_append team rest h]

/-- Witness for C4: profile app id `TEAMID.com.example.*`, original id
`com.example.app` resolves to the original with the wildcard warning. -/
theorem main_bundle_id_from_prov_witness :
    ('.' ∉ ("TEAMID".data)) ∧
    resolveFromProv ("TEAMID".data ++ '.' :: "com.example.*".data)
        "com.example.app".data =
      (if '*' ∈ "com.example.*".data
        then ("com.example.app".data, true) else ("com.example.*".data, false)) :=
  ⟨by decide, main_bundle_id_from_prov "TEAMID".data "com.example.*".data
      "com.example.app".data (by decide)⟩

/-- C8: a non-main primary component whose original bundle id starts with
the original main bundle id gets the new main bundle id with the original
suffix preserved verbatim. -/
theorem component_id_preserves_suffix (mainId oldMainId suffix : Str) :
    computeComponentId mainId oldMainId (oldMainId ++ suffix) =
      mainId ++ suffix := by
  rw [computeComponentId, List.drop_left]

lemma lookupMap_append_last (m : Mappings) (k v : Str)
    (h : lookupMap m k = none) : lookupMap (m ++ [(k, v)]) k = some v := by
  induction m with
  | nil => simp [lookupMap]
  | cons p rest ih =>
    obtain ⟨pk, pv⟩ := p
    by_cases hk : pk = k
    · rw [lookupMap, if_pos hk] at h
      exact absurd h (by simp)
    · rw [lookupMap, if_neg hk] at h
      rw [List.cons_append, lookupMap, if_neg hk]
      exact ih h

lemma remapStep_of_mem (g : Str → Str → Str) (e : Bool) (b : Option Str)
    (t : Str) (m : Mappings) (x : Str)
    (h : (lookupMap m x).isSome = true) :
    remapStep g e b t m x = m := by
  rw [remapStep, if_pos h]

lemma remapStep_isSome (g : Str → Str → Str) (e : Bool) (b : Option Str)
    (t : Str) (m : Mappings) (x : Str) (h : lookupMap m x = none) :
    (lookupMap (remapStep g e b t m x) x).isSome = true := by
  rw [remapStep]
  have h0 : (lookupMap m x).isSome = false := by rw [h]; rfl
  rw [if_neg (by simp [h0])]
  by_cases he : e = true
  · rw [if_pos he, lookupMap_append_last m x _ h]; rfl
  · rw [if_neg he, lookupMap_append_last m x _ h]; rfl

/-- C2: the memo table is first-seen-wins and sticky — the first remap of
an absent identifier stores a mapping, and any subsequent remap request
for the same identifier, made with any encode flag, nominal bundle-id
seed, team id or generator, leaves the table unchanged and returns the
stored replacement; entries are never overwritten. -/
theorem memo_first_seen_wins
    (g1 g2 : Str → Str → Str) (e1 e2 : Bool) (b1 b2 : Option Str)
    (t1 t2 : Str) (m : Mappings) (x : Str)
    (h : lookupMap m x = none) :
    ((lookupMap (remapStep g1 e1 b1 t1 m x) x).isSome = true) ∧
    (remapStep g2 e2 b2 t2 (remapStep g1 e1 b1 t1 m x) x =
      remapStep g1 e1 b1 t1 m x) ∧
    (∀ m' : Mappings, (lookupMap m' x).isSome = true →
      remapStep g2 e2 b2 t2 m' x = m' ∧
      lookupMap (remapStep g2 e2 b2 t2 m' x) x = lookupMap m' x) := by
  have h1 := remapStep_isSome g1 e1 b1 t1 m x h
  refine ⟨h1, remapStep_of_mem g2 e2 b2 t2 _ x h1, ?_⟩
  intro m' hm'
  rw [remapStep_of_mem g2 e2 b2 t2 m' x hm']
  exact ⟨rfl, rfl⟩

/-- Witness for C2: the identifier `group.a` is first remapped into an
empty table with encoding on, then requested again with encoding off and
a different nominal seed. -/
theorem memo_first_seen_wins_witness :
    (lookupMap [] "group.a".data = none) ∧
    (((lookupMap (remapStep (fun a _ => a ++ "X".data) true none "T1".data []
        "group.a".data) "group.a".data).isSome = true) ∧
    (remapStep (fun a _ => a) false (some "seed2".data) "T2".data
        (remapStep (fun a _ => a ++ "X".data) true none "T1".data []
          "group.a".data) "group.a".data =
      remapStep (fun a _ => a ++ "X".data) true none "T1".data []
        "group.a".data) ∧
    (∀ m' : Mappings, (lookupMap m' "group.a".data).isSome = true →
      remapStep (fun a _ => a) false (some "seed2".data) "T2".data m'
          "group.a".data = m' ∧
      lookupMap (remapStep (fun a _ => a) false (some "seed2".data)
          "T2".data m' "group.a".data) "group.a".data =
        lookupMap m' "group.a".data)) :=
  ⟨rfl, memo_first_seen_wins (fun a _ => a ++ "X".data) (fun a _ => a)
    true false none (some "seed2".data) "T1".data "T2".data [] "group.a".data
    rfl⟩

/-- C5: when the supplied profile's application identifier neither equals
the computed component app id nor contains a wildcard, only a warning is
produced and the `application-identifier` entitlement keeps the profile's
own value; when it matches or is a wildcard, the entitlement is rewritten
to the computed component app id with no warning. -/
theorem prov_app_id_mismatch_nonfatal (teamId bundleId provAppId : Str)
    (ents : Plist)
    (hold : ents "application-identifier" = some provAppId) :
    (provAppId ≠ teamId ++ '.' :: bundleId → '*' ∉ provAppId →
      applyProvAppId teamId bundleId provAppId ents = (ents, true) ∧
      (applyProvAppId teamId bundleId provAppId ents).1
        "application-identifier" = some provAppId) ∧
    (provAppId = teamId ++ '.' :: bundleId ∨ '*' ∈ provAppId →
      (applyProvAppId teamId bundleId provAppId ents).2 = false ∧
      (applyProvAppId teamId bundleId provAppId ents).1
        "application-identifier" = some (teamId ++ '.' :: bundleId)) := by
  constructor
  · intro hne hwild
    have hcond : ¬(provAppId = teamId ++ '.' :: bundleId ∨ '*' ∈ provAppId) := by
      rintro (hc | hc)
      · exact hne hc
      · exact hwild hc
    have happ : applyProvAppId teamId bundleId provAppId ents = (ents, true) := by
      simp only [applyProvAppId, if_neg hcond]
    rw [happ]
    exact ⟨rfl, hold⟩
  · intro hcond
    have happ : applyProvAppId teamId bundleId provAppId ents =
        (setKey "application-identifier" (teamId ++ '.' :: bundleId) ents,
          false) := by
      simp only [applyProvAppId, if_pos hcond]
    rw [happ]
    exact ⟨rfl, by simp [setKey]⟩

/-- Witness for C5: profile app id `TEAM.com.other.app` against computed
component app id `TEAM.com.example.app` — mismatch, no wildcard. -/
theorem prov_app_id_mismatch_nonfatal_witness :
    ((fun k => if k = "application-identifier"
        then some "TEAM.com.other.app".data else none)
      "application-identifier" = some "TEAM.com.other.app".data) ∧
    ("TEAM.com.other.app".data ≠ "TEAM".data ++ '.' :: "com.example.app".data) ∧
    ('*' ∉ "TEAM.com.other.app".data) ∧
    (applyProvAppId "TEAM".data "com.example.app".data
        "TEAM.com.other.app".data
        (fun k => if k = "application-identifier"
          then some "TEAM.com.other.app".data else none) =
      ((fun k => if k = "application-identifier"
          then some "TEAM.com.other.app".data else none), true) ∧
      (applyProvAppId "TEAM".data "com.example.app".data
        "TEAM.com.other.app".data
        (fun k => if k = "application-identifier"
          then some "TEAM.com.other.app".data else none)).1
        "application-identifier" = some "TEAM.com.other.app".data) :=
  ⟨rfl, by decide, by decide,
    (prov_app_id_mismatch_nonfatal "TEAM".data "com.example.app".data
      "TEAM.com.other.app".data
      (fun k => if k = "application-identifier"
        then some "TEAM.com.other.app".data else none) rfl).1
      (by decide) (by decide)⟩

/-- C6: with force-original-id set, the manifest's CFBundleIdentifier is
written back to the pre-signing identifier even though the replacement
identifier was computed, and `bundle_id.txt` records the original main
bundle id; with the flag unset, the manifest gets the computed identifier
and `bundle_id.txt` the computed main bundle id. -/
theorem force_original_id_spec (info : Plist)
    (oldBundleId oldMainId mainId : Str) :
    (writeManifestId true oldBundleId
        (computeComponentId mainId oldMainId oldBundleId) info)
      "CFBundleIdentifier" = some oldBundleId ∧
    (writeManifestId false oldBundleId
        (computeComponentId mainId oldMainId oldBundleId) info)
      "CFBundleIdentifier" =
        some (computeComponentId mainId oldMainId oldBundleId) ∧
    bundleIdTxt true oldMainId mainId = oldMainId ∧
    bundleIdTxt false oldMainId mainId = mainId := by
  refine ⟨?_, ?_, rfl, rfl⟩
  · simp [writeManifestId, setKey]
  · simp [writeManifestId, setKey]

/-- C10: the signed entitlements contain get-task-allow iff enable
debugging is set — any pre-existing value (from profile or extraction) is
deleted first and the key re-added as `true` only under the flag, so the
result does not depend on a previously present value. -/
theorem get_task_allow_iff_debug (patchDebug : Bool) (ents : Plist) :
    (finalizeDebug patchDebug ents) "get-task-allow" =
      (if patchDebug then some "true".data else none) ∧
    ((finalizeDebug patchDebug ents) "get-task-allow").isSome = patchDebug ∧
    (∀ v : Str, finalizeDebug patchDebug (setKey "get-task-allow" v ents) =
      finalizeDebug patchDebug ents) := by
  have hdel : ∀ v : Str,
      deleteKey "get-task-allow" (setKey "get-task-allow" v ents) =
        deleteKey "get-task-allow" ents := by
    intro v
    funext x
    by_cases hx : x = "get-task-allow"
    · rw [deleteKey, deleteKey, if_pos hx, if_pos hx]
    · rw [deleteKey, deleteKey, if_neg hx, if_neg hx, setKey, if_neg hx]
  refine ⟨?_, ?_, ?_⟩
  · cases patchDebug <;> simp [finalizeDebug, setKey, deleteKey]
  · cases patchDebug <;> simp [finalizeDebug, setKey, deleteKey]
  · intro v
    cases patchDebug <;> simp [finalizeDebug, hdel v]

lemma replaceScan_no_occurrence (o : Char) (os : List Char) (new : Str) :
    ∀ s : Str, occursIn (o :: os) s = false → replaceScan o os new s = s := by
  intro s
  induction s with
  | nil => intro _; rw [replaceScan]
  | cons c cs ih =>
    intro h
    rw [occursIn, Bool.or_eq_false_iff] at h
    rw [replaceScan, if_neg (by rw [h.1]; exact Bool.false_ne_true), ih h.2]

lemma self_isPrefixOf_append (l rest : Str) :
    l.isPrefixOf (l ++ rest) = true := by
  induction l with
  | nil => rw [List.nil_append]; cases rest <;> rfl
  | cons a as ih => simp [List.isPrefixOf, ih]

/-- C7: with patch-identifiers-in-binary unset the component binary and
manifest are left untouched and only the entitlements file is patched;
with the flag set, all three files receive every patch; each patch is
exact literal leftmost non-overlapping substring replacement: a needle
that does not occur leaves the file unchanged, a needle at the current
position is replaced by the new string with the scan resuming after it,
and a non-matching position is copied verbatim. -/
theorem patch_ids_flag_and_literal (patches : List (Str × Str))
    (fs : ComponentFiles) (o : Char) (os : List Char) (new : Str)
    (s rest : Str) (c : Char) (cs : Str)
    (hno : occursIn (o :: os) s = false)
    (hhd : (o :: os).isPrefixOf (c :: cs) = false) :
    patchComponent false patches fs =
      { entitlementsFile := applyPatches patches fs.entitlementsFile,
        binaryFile := fs.binaryFile,
        manifestFile := fs.manifestFile } ∧
    patchComponent true patches fs =
      { entitlementsFile := applyPatches patches fs.entitlementsFile,
        binaryFile := applyPatches patches fs.binaryFile,
        manifestFile := applyPatches patches fs.manifestFile } ∧
    replaceAll (o :: os) new s = s ∧
    replaceAll (o :: os) new ((o :: os) ++ rest) =
      new ++ replaceAll (o :: os) new rest ∧
    replaceAll (o :: os) new (c :: cs) = c :: replaceAll (o :: os) new cs := by
  refine ⟨?_, ?_, ?_, ?_, ?_⟩
  · simp [patchComponent]
  · simp [patchComponent]
  · exact replaceScan_no_occurrence o os new s hno
  · have hsp := self_isPrefixOf_append (o :: os) rest
    rw [List.cons_append] at hsp
    rw [replaceAll, List.cons_append, replaceScan, if_pos hsp, List.drop_left]
    rfl
  · show replaceScan o os new (c :: cs) = c :: replaceScan o os new cs
    rw [replaceScan, if_neg (by rw [hhd]; exact Bool.false_ne_true)]

/-- Witness for C7 at concrete inputs. -/
theorem patch_ids_flag_and_literal_witness :
    (occursIn "com.a".data "org.b.app".data = false) ∧
    ("com.a".data.isPrefixOf "x.com.a".data = false) ∧
    (patchComponent false [("com.a".data, "net.z".data)]
        { entitlementsFile := "e".data, binaryFile := "b".data,
          manifestFile := "m".data } =
      { entitlementsFile :=
          applyPatches [("com.a".data, "net.z".data)] "e".data,
        binaryFile := "b".data, manifestFile := "m".data } ∧
    patchComponent true [("com.a".data, "net.z".data)]
        { entitlementsFile := "e".data, binaryFile := "b".data,
          manifestFile := "m".data } =
      { entitlementsFile :=
          applyPatches [("com.a".data, "net.z".data)] "e".data,
        binaryFile := applyPatches [("com.a".data, "net.z".data)] "b".data,
        manifestFile :=
          applyPatches [("com.a".data, "net.z".data)] "m".data } ∧
    replaceAll "com.a".data "net.z".data "org.b.app".data = "org.b.app".data ∧
    replaceAll "com.a".data "net.z".data ("com.a".data ++ ".ext".data) =
      "net.z".data ++ replaceAll "com.a".data "net.z".data ".ext".data ∧
    replaceAll "com.a".data "net.z".data ('x' :: "x.com.a".data.tail) =
      'x' :: replaceAll "com.a".data "net.z".data "x.com.a".data.tail) := by
  refine ⟨by decide, by decide, ?_⟩
  have h := patch_ids_flag_and_literal
    [("com.a".data, "net.z".data)]
    { entitlementsFile := "e".data, binaryFile := "b".data,
      manifestFile := "m".data }
    'c' "om.a".data "net.z".data "org.b.app".data ".ext".data
    'x' "x.com.a".data.tail (by decide) (by decide)
  exact h

lemma foldl_deleteKey_apply (l : List String) (m : Plist) (x : String) :
    (l.foldl (fun acc k => deleteKey k acc) m) x =
      if x ∈ l then none else m x := by
  induction l generalizing m with
  | nil => simp
  | cons k l ih =>
    rw [List.foldl_cons, ih]
    by_cases hl : x ∈ l
    · simp [hl]
    · by_cases hk : x = k
      · simp [hl, hk, deleteKey]
      · simp [hl, hk, deleteKey, List.mem_cons]

lemma setKeyIfPresent_apply (k : String) (v : Str) (m : Plist) (x : String) :
    setKeyIfPresent k v m x =
      if x = k then (if (m k).isSome then some v else m k) else m x := by
  rw [setKeyIfPresent]
  by_cases hp : (m k).isSome
  · rw [if_pos hp, setKey]
    by_cases hx : x = k
    · simp [hx, hp]
    · simp [hx]
  · rw [if_neg hp]
    by_cases hx : x = k
    · simp [hx, hp]
    · simp [hx]

lemma stripKeys_apply (m : Plist) (x : String) :
    stripKeys m x = if x ∈ strippedKeys then none else m x :=
  foldl_deleteKey_apply strippedKeys m x

lemma stripStep_apply (m : Plist) (x : String) :
    stripStep m x =
      if x ∈ strippedKeys then none
      else if x = "aps-environment" then
        (if (m x).isSome then some "development".data else m x)
      else if x = "com.apple.developer.icloud-container-environment" then
        (if (m x).isSome then some "Development".data else m x)
      else m x := by
  have haps : "aps-environment" ∉ strippedKeys := by decide
  have hicl : "com.apple.developer.icloud-container-environment" ∉
      strippedKeys := by decide
  rw [stripStep, setKeyIfPresent_apply, setKeyIfPresent_apply,
    setKeyIfPresent_apply, stripKeys_apply, stripKeys_apply, stripKeys_apply]
  by_cases hx : x ∈ strippedKeys
  · have hxa : x ≠ "aps-environment" := fun h => haps (h ▸ hx)
    have hxi : x ≠ "com.apple.developer.icloud-container-environment" :=
      fun h => hicl (h ▸ hx)
    simp only [if_neg hxa, if_neg hxi, if_pos hx]
  · simp only [if_neg hx]
    by_cases hxa : x = "aps-environment"
    · subst hxa
      simp only [if_pos rfl, if_neg haps,
        if_neg (by decide : ("aps-environment" : String) ≠
          "com.apple.developer.icloud-container-environment")]
    · simp only [if_neg hxa]
      by_cases hxi : x = "com.apple.developer.icloud-container-environment"
      · subst hxi
        simp only [if_pos rfl, if_neg hicl]
      · simp only [if_neg hxi]

/-- C9: applying the Oracle's fixed entitlement delete-list and the two
environment demotions twice yields the same manifest as applying them
once, for every starting manifest. -/
theorem strip_entitlements_idempotent (m : Plist) :
    stripStep (stripStep m) = stripStep m := by
  funext x
  rw [stripStep_apply (stripStep m) x, stripStep_apply m x]
  by_cases hx : x ∈ strippedKeys
  · simp only [if_pos hx]
  · simp only [if_neg hx]
    by_cases hxa : x = "aps-environment"
    · simp only [if_pos hxa]
      by_cases hm : (m x).isSome
      · simp [hm]
      · simp [hm]
    · simp only [if_neg hxa]
      by_cases hxi : x = "com.apple.developer.icloud-container-environment"
      · simp only [if_pos hxi]
        by_cases hm : (m x).isSome
        · simp [hm]
        · simp [hm]
      · simp only [if_neg hxi]

lemma take_append_eq_of_le {α : Type} (tr ext : List α) (n : Nat)
    (hn : n ≤ tr.length) : (tr ++ ext).take n = tr.take n := by
  induction tr generalizing n with
  | nil =>
    have : n = 0 := Nat.le_zero.mp hn
    subst this
    rfl
  | cons a tr ih =>
    cases n with
    | zero => rfl
    | succ n =>
      rw [List.cons_append, List.take_succ_cons, List.take_succ_cons,
        ih n (Nat.le_of_succ_le_succ hn)]

lemma occursBefore_append (e1 e2 : SchedEvent) (tr ext : List SchedEvent)
    (h : occursBefore e1 e2 tr) : occursBefore e1 e2 (tr ++ ext) := by
  obtain ⟨n, hn, h1, h2⟩ := h
  refine ⟨n, ?_, ?_, ?_⟩
  · rw [List.length_append]
    omega
  · rw [take_append_eq_of_le tr ext n hn]
    exact h1
  · rw [take_append_eq_of_le tr ext n hn]
    exact h2

lemma runFrom_trace_extend (s : SchedState) (cs : List FsPath) :
    ∃ t, (runFrom s cs).trace = s.trace ++ t := by
  induction cs generalizing s with
  | nil => exact ⟨[], (List.append_nil _).symm⟩
  | cons c cs ih =>
    obtain ⟨t, ht⟩ := ih (dispatchOne s c)
    rw [show runFrom s (c :: cs) = runFrom (dispatchOne s c) cs from rfl]
    refine ⟨(s.jobs.filter (fun p => leads c p)).map SchedEvent.completed ++
      [SchedEvent.dispatched c] ++ t, ?_⟩
    rw [ht, dispatchOne]
    simp [List.append_assoc]

lemma dispatched_origin (p : FsPath) (s : SchedState) (cs : List FsPath)
    (h : SchedEvent.dispatched p ∈ (runFrom s cs).trace) :
    SchedEvent.dispatched p ∈ s.trace ∨ p ∈ cs := by
  induction cs generalizing s with
  | nil => exact Or.inl h
  | cons c cs ih =>
    rw [show runFrom s (c :: cs) = runFrom (dispatchOne s c) cs from rfl] at h
    rcases ih (dispatchOne s c) h with h1 | h1
    · rw [dispatchOne] at h1
      simp only [List.mem_append] at h1
      rcases h1 with (h1 | h1) | h1
      · exact Or.inl h1
      · exfalso
        obtain ⟨q, _, hq⟩ := List.mem_map.mp h1
        exact SchedEvent.noConfusion hq
      · right
        rw [List.mem_singleton] at h1
        injection h1 with h1
        exact h1 ▸ List.mem_cons_self c cs
    · exact Or.inr (List.mem_cons_of_mem c h1)

lemma alive_invariant (c1 : FsPath) (s : SchedState) (cs : List FsPath)
    (h : SchedEvent.completed c1 ∈ s.trace ∨ c1 ∈ s.jobs ∨ c1 ∈ cs) :
    SchedEvent.completed c1 ∈ (runFrom s cs).trace ∨
      c1 ∈ (runFrom s cs).jobs := by
  induction cs generalizing s with
  | nil =>
    rcases h with h | h | h
    · exact Or.inl h
    · exact Or.inr h
    · exact absurd h (List.not_mem_nil c1)
  | cons c cs ih =>
    rw [show runFrom s (c :: cs) = runFrom (dispatchOne s c) cs from rfl]
    apply ih
    rcases h with h | h | h
    · left
      rw [dispatchOne]
      simp only [List.mem_append]
      left; left
      exact h
    · by_cases hl : leads c c1 = true
      · left
        rw [dispatchOne]
        simp only [List.mem_append]
        left; right
        exact List.mem_map.mpr ⟨c1, List.mem_filter.mpr ⟨h, hl⟩, rfl⟩
      · right; left
        rw [dispatchOne]
        simp only [List.mem_append]
        left
        exact List.mem_filter.mpr ⟨h, by simp [hl]⟩
    · rcases List.mem_cons.mp h with h | h
      · right; left
        subst h
        rw [dispatchOne]
        simp only [List.mem_append]
        right
        exact List.mem_singleton.mpr rfl
      · right; right
        exact h

/-- C1: in the dispatch loop, a component `c1` filesystem-contained in a
later component `c2` has its job's completion observed (waited on,
status-checked) strictly before the dispatch of `c2`'s job appears in
the trace; and any running job not contained in the component being
dispatched is left running by that dispatch step. -/
theorem contained_completes_before_dispatch
    (l1 l2 : List FsPath) (c1 c2 : FsPath)
    (hmem : c1 ∈ l1) (hnot : c2 ∉ l1) (hcont : leads c2 c1 = true) :
    occursBefore (SchedEvent.completed c1) (SchedEvent.dispatched c2)
      (finalTrace (l1 ++ c2 :: l2)) ∧
    (∀ (s : SchedState) (c p : FsPath), p ∈ s.jobs → leads c p = false →
      p ∈ (dispatchOne s c).jobs) := by
  constructor
  · have halive := alive_invariant c1 ⟨[], []⟩ l1 (Or.inr (Or.inr hmem))
    have hnd : SchedEvent.dispatched c2 ∉ (runFrom ⟨[], []⟩ l1).trace := by
      intro hin
      rcases dispatched_origin c2 ⟨[], []⟩ l1 hin with h | h
      · exact absurd h (List.not_mem_nil _)
      · exact hnot h
    have hrun : runFrom (⟨[], []⟩ : SchedState) (l1 ++ c2 :: l2) =
        runFrom (dispatchOne (runFrom ⟨[], []⟩ l1) c2) l2 := by
      rw [runFrom, runFrom, runFrom, List.foldl_append, List.foldl_cons]
    obtain ⟨t, ht⟩ :=
      runFrom_trace_extend (dispatchOne (runFrom ⟨[], []⟩ l1) c2) l2
    have hfin : finalTrace (l1 ++ c2 :: l2) =
        (dispatchOne (runFrom ⟨[], []⟩ l1) c2).trace ++
          (t ++ (runFrom (dispatchOne (runFrom ⟨[], []⟩ l1) c2)
            l2).jobs.map SchedEvent.completed) := by
      rw [finalTrace, hrun, ht, List.append_assoc]
    rw [hfin]
    apply occursBefore_append
    rw [dispatchOne]
    simp only
    refine ⟨((runFrom ⟨[], []⟩ l1).trace ++
      ((runFrom ⟨[], []⟩ l1).jobs.filter
        (fun p => leads c2 p)).map SchedEvent.completed).length, ?_, ?_, ?_⟩
    · simp only [List.length_append, List.length_cons, List.length_nil]
      omega
    · rw [List.take_left, List.mem_append]
      rcases halive with h | h
      · exact Or.inl h
      · right
        exact List.mem_map.mpr ⟨c1, List.mem_filter.mpr ⟨h, hcont⟩, rfl⟩
    · rw [List.take_left, List.mem_append]
      rintro (h | h)
      · exact hnd h
      · obtain ⟨q, _, hq⟩ := List.mem_map.mp h
        exact SchedEvent.noConfusion hq
  · intro s c p hp hl
    rw [dispatchOne]
    simp only [List.mem_append]
    left
    exact List.mem_filter.mpr ⟨hp, by simp [hl]⟩

/-- Witness for C1: a framework nested inside the main application; a
non-contained sibling job is left running by a dispatch step. -/
theorem contained_completes_before_dispatch_witness :
    (["Payload", "A.app", "Frameworks", "F.framework"] ∈
      [["Payload", "A.app", "Frameworks", "F.framework"]]) ∧
    (["Payload", "A.app"] ∉
      [["Payload", "A.app", "Frameworks", "F.framework"]]) ∧
    (leads ["Payload", "A.app"]
      ["Payload", "A.app", "Frameworks", "F.framework"] = true) ∧
    (occursBefore
      (SchedEvent.completed ["Payload", "A.app", "Frameworks", "F.framework"])
      (SchedEvent.dispatched ["Payload", "A.app"])
      (finalTrace ([["Payload", "A.app", "Frameworks", "F.framework"]] ++
        ["Payload", "A.app"] :: [])) ∧
    (∀ (s : SchedState) (c p : FsPath), p ∈ s.jobs → leads c p = false →
      p ∈ (dispatchOne s c).jobs)) :=
  ⟨by decide, by decide, by decide,
    contained_completes_before_dispatch
      [["Payload", "A.app", "Frameworks", "F.framework"]] []
      ["Payload", "A.app", "Frameworks", "F.framework"] ["Payload", "A.app"]
      (by decide) (by decide) (by decide)⟩

end XSign
